import Mathlib

/-!
# signalfx-go-tracing: the embedded Zipkin server and the environment defaults

A shallow embedding of

* `ddtrace/zipkinserver/zipkinserver.go`: the `ZipkinServer` value, `Reset`, and the
  HTTP handler installed by `Start`;
* `tracing/tracing.go`: `defaults`, `envOrDefault` and `envDefaultAndGlobalTags`.

Go strings are Lean strings (valid UTF-8 text).  The pieces of the Go standard library
the code calls (`http.ResponseWriter`, `http.Header.Get`, `os.Getenv`, `strings.Split`,
`strings.TrimSpace`) are written out as plain functions with the behaviour their
documentation gives them.  The JSON decoder (`easyjson.UnmarshalFromReader` at the type
`traceformat.Trace`) belongs to other repositories and is a parameter of the handler.
-/

set_option autoImplicit false

namespace zipkinserver

/-! ## Spans -/

/-- One reported span, `traceformat.Span` of `signalfx/golib`, with the fields the tests
read (`TraceID`, `ID`, `ParentID`) and the remaining scalar fields of the wire format. -/
structure Span where
  TraceID : String
  ID : String
  ParentID : Option String
  Name : Option String
  Timestamp : Option Int
  Duration : Option Int
  deriving DecidableEq, Repr

/-- A batch of spans, `traceformat.Trace` (`[]*Span`).  A nil slice and an empty slice
are both the empty list. -/
abbrev Trace := List Span

/-- The type of the decoder `easyjson.UnmarshalFromReader(r.Body, &trace)`: from the
bytes of the body to the decoded batch, or to the text of the decode error. -/
abbrev Unmarshal := String → Except String Trace

/-! ## The parts of `net/http` the handler uses -/

def MethodPost : String := "POST"

def StatusOK : Nat := 200
def StatusBadRequest : Nat := 400
def StatusNotFound : Nat := 404
def StatusMethodNotAllowed : Nat := 405
def StatusNotAcceptable : Nat := 406

/-- Upper-case an ASCII lower-case letter, leave every other character alone. -/
def asciiUpper (c : Char) : Char :=
  if 'a'.toNat ≤ c.toNat ∧ c.toNat ≤ 'z'.toNat then Char.ofNat (c.toNat - 32) else c

/-- Lower-case an ASCII upper-case letter, leave every other character alone. -/
def asciiLower (c : Char) : Char :=
  if 'A'.toNat ≤ c.toNat ∧ c.toNat ≤ 'Z'.toNat then Char.ofNat (c.toNat + 32) else c

/-- The loop of `textproto.CanonicalMIMEHeaderKey` on a key made of token characters:
the first letter and every letter after a hyphen are upper-cased, the others are
lower-cased.  `upper` says whether the next character starts a word. -/
def canonicalChars : Bool → List Char → List Char
  | _, [] => []
  | upper, c :: cs =>
    (if upper then asciiUpper c else asciiLower c) :: canonicalChars (c == '-') cs

/-- The canonical form of a header key: `content-type` becomes `Content-Type`. -/
def CanonicalMIMEHeaderKey (key : String) : String :=
  String.mk (canonicalChars true key.data)

/-- The headers of a request, `http.Header`: canonical keys, each with its values. -/
abbrev Header := List (String × List String)

/-- The first value under the canonical form of the key, the empty string when the
header is absent: `http.Header.Get`. -/
def Header.Get (h : Header) (key : String) : String :=
  match h.lookup (CanonicalMIMEHeaderKey key) with
  | some (v :: _) => v
  | _ => ""

/-- What the handler reads of an `*http.Request`. -/
structure Request where
  /-- The method, `r.Method`. -/
  Method : String
  /-- The path, `r.URL.Path`. -/
  Path : String
  /-- The headers, `r.Header`. -/
  Header : Header
  /-- The bytes `r.Body` yields. -/
  Body : String
  deriving DecidableEq, Repr

/-- The state of an `http.ResponseWriter` during one request. -/
structure ResponseWriter where
  /-- Whether the status line has been written. -/
  wroteHeader : Bool
  /-- The status that was written (meaningful once `wroteHeader` holds). -/
  status : Nat
  /-- The body written so far. -/
  body : String
  /-- The error every write to the connection returns, when the connection is broken. -/
  connErr : Option String
  deriving DecidableEq, Repr

/-- A fresh writer, as the server hands it to the handler. -/
def ResponseWriter.new (connErr : Option String) : ResponseWriter :=
  { wroteHeader := false, status := 0, body := "", connErr := connErr }

/-- The status line is written once: `WriteHeader` after the header was written is
ignored (net/http logs a superfluous call and returns). -/
def ResponseWriter.WriteHeader (w : ResponseWriter) (code : Nat) : ResponseWriter :=
  if w.wroteHeader then w else { w with wroteHeader := true, status := code }

/-- Writing body data `io.WriteString(w, s)`: when the header was not written yet,
`Write` first calls `WriteHeader(http.StatusOK)`; then the data goes out, or the
connection error comes back. -/
def ResponseWriter.WriteString (w : ResponseWriter) (s : String) :
    ResponseWriter × Option String :=
  let w1 := if w.wroteHeader then w else w.WriteHeader StatusOK
  match w1.connErr with
  | some e => (w1, some e)
  | none => ({ w1 with body := w1.body ++ s }, none)

/-- When the handler returns without having written the header, the server sends
`200 OK`. -/
def ResponseWriter.finishRequest (w : ResponseWriter) : ResponseWriter :=
  if w.wroteHeader then w else w.WriteHeader StatusOK

/-- The response the client receives. -/
structure Response where
  status : Nat
  body : String
  deriving DecidableEq, Repr

/-! ## `zipkinserver.go` -/

/-- The embedded server: of its fields, the received spans (the listener
`*httptest.Server` carries no data the handler reads). -/
structure ZipkinServer where
  Spans : Trace
  deriving DecidableEq, Repr

/-- Forget the received spans: `z.Spans = nil`. -/
def ZipkinServer.Reset (_z : ZipkinServer) : ZipkinServer :=
  { Spans := [] }

/-- The handler function of `Start`, one request against the server value `zipkin`
and the writer `w`.  `Except.error` is the handler's `panic(err)`. -/
def handler (unmarshal : Unmarshal) (zipkin : ZipkinServer) (w : ResponseWriter)
    (r : Request) : Except String (ZipkinServer × ResponseWriter) :=
  if r.Path = "/v1/trace" then
    if r.Method ≠ MethodPost then
      .ok (zipkin, w.WriteHeader StatusMethodNotAllowed)
    else if r.Header.Get "content-type" ≠ "application/json" then
      .ok (zipkin, w.WriteHeader StatusNotAcceptable)
    else
      match unmarshal r.Body with
      | .error err =>
        match w.WriteString err with
        | (_, some werr) => .error werr
        | (w1, none) => .ok (zipkin, w1.WriteHeader StatusBadRequest)
      | .ok trace => .ok ({ zipkin with Spans := zipkin.Spans ++ trace }, w)
  else
    .ok (zipkin, w.WriteHeader StatusNotFound)

/-- The server created by `Start`, before any request: `&ZipkinServer{}`. -/
def Start : ZipkinServer := { Spans := [] }

/-- One request through the server: the handler runs on a fresh writer, then the
server finishes the response.  A handler that panicked sends no response
(`none`), and its server value is the one it had when it panicked, which in
this handler is the one it started with. -/
def serve (unmarshal : Unmarshal) (connErr : Option String) (zipkin : ZipkinServer)
    (r : Request) : ZipkinServer × Option Response :=
  match handler unmarshal zipkin (ResponseWriter.new connErr) r with
  | .ok (z1, w1) =>
    let w2 := w1.finishRequest
    (z1, some { status := w2.status, body := w2.body })
  | .error _ => (zipkin, none)

/-- Requests served one after another. -/
def serveAll (unmarshal : Unmarshal) (connErr : Option String) :
    ZipkinServer → List Request → ZipkinServer
  | zipkin, [] => zipkin
  | zipkin, r :: rs => serveAll unmarshal connErr (serve unmarshal connErr zipkin r).1 rs

/-- A parent span for the worked examples. -/
def span1 : Span :=
  { TraceID := "t1", ID := "1", ParentID := none, Name := some "span-1",
    Timestamp := some 10, Duration := some 5 }

/-- A child of `span1` for the worked examples. -/
def span2 : Span :=
  { TraceID := "t1", ID := "2", ParentID := some "1", Name := some "span-2",
    Timestamp := some 11, Duration := some 2 }

/-- A decoder for the worked examples: it knows three bodies and rejects the rest. -/
def sampleUnmarshal : Unmarshal := fun body =>
  if body = "[]" then .ok []
  else if body = "[span-1]" then .ok [span1]
  else if body = "[span-2,span-1]" then .ok [span2, span1]
  else .error "parse error: unexpected token"

/-- The request is one the handler takes a batch from: a POST to `/v1/trace` with
content type `application/json` whose body decodes to the batch `B`. -/
def Accepts (unmarshal : Unmarshal) (r : Request) (B : Trace) : Prop :=
  r.Path = "/v1/trace" ∧ r.Method = "POST" ∧
    r.Header.Get "content-type" = "application/json" ∧ unmarshal r.Body = .ok B

/-- A POST to `/v1/trace` with content type `application/json` and the given body. -/
def postJSON (body : String) : Request :=
  { Method := "POST", Path := "/v1/trace", Header := [("Content-Type", ["application/json"])],
    Body := body }

/-- A header set with one content type. -/
def contentType (v : String) : Header := [("Content-Type", [v])]

/-- The store contents seen after each of the requests, in the order served. -/
def observations (unmarshal : Unmarshal) (connErr : Option String) :
    ZipkinServer → List Request → List Trace
  | _, [] => []
  | zipkin, r :: rs =>
    (serve unmarshal connErr zipkin r).1.Spans ::
      observations unmarshal connErr (serve unmarshal connErr zipkin r).1 rs

/-- Modelled from the spec: the wait primitive `waitFor(n, timeout)`, which the tests
call as `zipkin.WaitForSpans(t, n)` and whose definition is not among the sources.
Time is the sequence of looks the waiter takes at the store before the deadline: `cur`
is the content at the look in progress (the first one happens when the call starts),
the list holds the contents at the later looks, and the deadline passes when the list
is used up.  Following section 4.4 the wait succeeds as soon as a look finds at least
`n` spans, returning that snapshot, and otherwise fails reporting how many spans the
last look found. -/
def waitFor (n : Nat) : Trace → List Trace → Except Nat Trace
  | cur, [] => if n ≤ cur.length then .ok cur else .error cur.length
  | cur, nxt :: rest => if n ≤ cur.length then .ok cur else waitFor n nxt rest

/-- Modelled from the spec: `ZipkinServer.WaitForSpans` against the server of this file,
the waiter looking at the store when it is called and after each request the server
handles before the deadline. -/
def WaitForSpans (unmarshal : Unmarshal) (connErr : Option String) (zipkin : ZipkinServer)
    (reqs : List Request) (n : Nat) : Except Nat Trace :=
  waitFor n zipkin.Spans (observations unmarshal connErr zipkin reqs)

end zipkinserver

namespace strings

/-- The pieces of a text between the occurrences of a one-character separator. -/
def splitChars (sep : Char) : List Char → List (List Char)
  | [] => [[]]
  | c :: cs =>
    if c = sep then [] :: splitChars sep cs
    else
      match splitChars sep cs with
      | [] => [[c]]
      | p :: ps => (c :: p) :: ps

/-- Go `strings.Split(s, sep)` for a separator of one character, which is how
`tracing.go` calls it: all the substrings between separators, `[s]` when there is none. -/
def Split (s : String) (sep : Char) : List String :=
  (splitChars sep s.data).map String.mk

/-- Go `unicode.IsSpace`: the Latin-1 space characters, and beyond Latin-1 the
characters of the Unicode property White_Space. -/
def IsSpace (r : Char) : Bool :=
  let n := r.toNat
  if n ≤ 0xFF then
    n == 0x09 || n == 0x0A || n == 0x0B || n == 0x0C || n == 0x0D || n == 0x20 ||
      n == 0x85 || n == 0xA0
  else
    n == 0x1680 || (0x2000 ≤ n && n ≤ 0x200A) || n == 0x2028 || n == 0x2029 ||
      n == 0x202F || n == 0x205F || n == 0x3000

/-- Go `strings.TrimSpace`: the text without its leading and trailing white space. -/
def TrimSpace (s : String) : String :=
  String.mk ((s.data.dropWhile IsSpace).rdropWhile IsSpace)

end strings

namespace tracer

/-- An option of the tracer, `tracer.StartOption`.  The Go value is a closure; of the
options of the tracer package `tracing.go` builds in `envDefaultAndGlobalTags` only
`tracer.WithGlobalTag(k, v)`, which is recorded by its two arguments. -/
inductive StartOption where
  | WithGlobalTag (k : String) (v : String)
  deriving DecidableEq, Repr

end tracer

namespace tracing

open tracer (StartOption)

/-! ## `tracing.go` -/

def signalfxServiceName : String := "SIGNALFX_SERVICE_NAME"
def signalfxEndpointURL : String := "SIGNALFX_ENDPOINT_URL"
def signalfxAccessToken : String := "SIGNALFX_ACCESS_TOKEN"
def signalfxSpanTags : String := "SIGNALFX_SPAN_TAGS"

def SignalfxLibraryKey : String := "signalfx.tracing.library"
def SignalfxLibraryValue : String := "go.tracing"
def SignalfxVersionKey : String := "signalfx.tracing.version"
def SignalfxVersionValue : String := "v1.1.0"

/-- The process environment: the value of each variable that is set. -/
abbrev Environ := String → Option String

/-- Go `os.Getenv`: the value of the variable, the empty string when it is not set. -/
def Getenv (env : Environ) (key : String) : String :=
  (env key).getD ""

/-- The map literal `defaults`. -/
def defaults : List (String × String) :=
  [ (signalfxServiceName, "unnamed-go-service"),
    (signalfxEndpointURL, "http://localhost:9080/v1/trace"),
    (signalfxAccessToken, "") ]

/-- Indexing the map, `defaults[envVar]`: the empty string for a key that is absent. -/
def defaultsAt (envVar : String) : String :=
  (defaults.lookup envVar).getD ""

/-- The environment variable if it is non-empty, otherwise the default value. -/
def envOrDefault (env : Environ) (envVar : String) : String :=
  let val := Getenv env envVar
  if val ≠ "" then val else defaultsAt envVar

/-- One round of the loop over the entries of `SIGNALFX_SPAN_TAGS`. -/
def addTag (globalTags : List StartOption) (tag : String) : List StartOption :=
  let pair := strings.Split tag ':'
  match pair with
  | [p0, p1] =>
    let key := strings.TrimSpace p0
    let value := strings.TrimSpace p1
    if key = "" then globalTags
    else globalTags ++ [StartOption.WithGlobalTag key value]
  | _ => globalTags

/-- The library and version tags, then the tags of the environment variable. -/
def envDefaultAndGlobalTags (env : Environ) : List StartOption :=
  let globalTags : List StartOption := []
  let defaultLibraryTag := StartOption.WithGlobalTag SignalfxLibraryKey SignalfxLibraryValue
  let globalTags := globalTags ++ [defaultLibraryTag]
  let defaultVersionTag := StartOption.WithGlobalTag SignalfxVersionKey SignalfxVersionValue
  let globalTags := globalTags ++ [defaultVersionTag]
  let val := Getenv env signalfxSpanTags
  if val = "" then globalTags
  else
    let tags := strings.Split val ','
    tags.foldl addTag globalTags

/-- The tag of one entry as the specification words it: an entry in the format
`key:value`, which is one with exactly one colon, gives the tag of its trimmed key and
trimmed value unless the trimmed key is empty; any other entry gives no tag. -/
def specEntryTag (entry : String) : Option StartOption :=
  if entry.data.count ':' = 1 then
    let key := strings.TrimSpace (String.mk (entry.data.takeWhile (fun c => c != ':')))
    let value := strings.TrimSpace (String.mk (entry.data.dropWhile (fun c => c != ':')).tail)
    if key = "" then none else some (StartOption.WithGlobalTag key value)
  else none

/-- An environment with the given variables set and no others. -/
def environOf (vars : List (String × String)) : Environ := fun key => vars.lookup key

end tracing

section Examples
open zipkinserver tracing tracer

example : CanonicalMIMEHeaderKey "content-type" = "Content-Type" := by decide
example : Header.Get (contentType "application/json") "content-type" = "application/json" := by
  decide
example : Header.Get [] "content-type" = "" := by decide
example :
    serve sampleUnmarshal none Start
      { Method := "POST", Path := "/v1/trace", Header := contentType "application/json",
        Body := "oops" }
      = (Start, some { status := 200, body := "parse error: unexpected token" }) := by
  decide
example : strings.Split "a,b,,c" ',' = ["a", "b", "", "c"] := by decide
example : strings.Split "" ',' = [""] := by decide
example : strings.TrimSpace "  a b \t" = "a b" := by decide
example :
    envDefaultAndGlobalTags (environOf [("SIGNALFX_SPAN_TAGS", "a:b, c : d ,e,:f,g:h:i, k:")])
      = [.WithGlobalTag "signalfx.tracing.library" "go.tracing",
         .WithGlobalTag "signalfx.tracing.version" "v1.1.0",
         .WithGlobalTag "a" "b", .WithGlobalTag "c" "d", .WithGlobalTag "k" ""] := by
  decide
example : envOrDefault (environOf [("SIGNALFX_SERVICE_NAME", "")]) "SIGNALFX_SERVICE_NAME"
    = "unnamed-go-service" := by decide
example : waitFor 5 [] [[], []] = .error 0 := rfl

end Examples

namespace zipkinserver

/-! ## The handler -/

theorem accepts_postJSON (unmarshal : Unmarshal) (body : String) (B : Trace)
    (h : unmarshal body = .ok B) : Accepts unmarshal (postJSON body) B :=
  have hc : Header.Get [("Content-Type", ["application/json"])] "content-type"
      = "application/json" := by decide
  ⟨rfl, rfl, hc, h⟩

theorem serve_of_accepts (unmarshal : Unmarshal) (connErr : Option String)
    (zipkin : ZipkinServer) (r : Request) (B : Trace) (h : Accepts unmarshal r B) :
    serve unmarshal connErr zipkin r
      = ({ Spans := zipkin.Spans ++ B }, some { status := 200, body := "" }) := by
  obtain ⟨hp, hm, hc, hd⟩ := h
  simp [serve, handler, hp, hm, hc, hd, MethodPost, ResponseWriter.new,
    ResponseWriter.finishRequest, ResponseWriter.WriteHeader, StatusOK]

/-- C1.  A POST to `/v1/trace` with content type exactly `application/json` whose body
decodes to the batch `B` leaves the store equal to the old store followed by `B`, and
the response is `200` with an empty body. -/
theorem serve_valid_batch (unmarshal : Unmarshal) (connErr : Option String)
    (zipkin : ZipkinServer) (r : Request) (B : Trace)
    (hpath : r.Path = "/v1/trace") (hmethod : r.Method = "POST")
    (hctype : r.Header.Get "content-type" = "application/json")
    (hdecode : unmarshal r.Body = .ok B) :
    (serve unmarshal connErr zipkin r).1.Spans = zipkin.Spans ++ B ∧
      (serve unmarshal connErr zipkin r).2 = some { status := 200, body := "" } := by
  rw [serve_of_accepts unmarshal connErr zipkin r B ⟨hpath, hmethod, hctype, hdecode⟩]
  exact ⟨rfl, rfl⟩

theorem serve_valid_batch_witness :
    (serve sampleUnmarshal none { Spans := [span1] }
        (postJSON "[span-2,span-1]")).1.Spans
        = [span1]
            ++ [span2, span1] ∧
      (serve sampleUnmarshal none { Spans := [span1] }
        (postJSON "[span-2,span-1]")).2 = some { status := 200, body := "" } :=
  serve_valid_batch sampleUnmarshal none _ (postJSON "[span-2,span-1]") _
    rfl rfl (by decide) rfl

/-- C2 (what the code does).  A POST to `/v1/trace` with content type `application/json`
and the body `oops`, which the decoder rejects, leaves the store as it was and is
answered with the error text in the body, and the status sent is `200`, not `400`: the
body is written first, which sends the header with `200`, and the later
`WriteHeader(400)` is ignored. -/
theorem serve_invalid_json_sends_200 :
    sampleUnmarshal "oops" = .error "parse error: unexpected token" ∧
      serve sampleUnmarshal none { Spans := [] } (postJSON "oops")
        = ({ Spans := [] }, some { status := 200, body := "parse error: unexpected token" }) ∧
      (ResponseWriter.new none).WriteString "parse error: unexpected token"
        = ({ wroteHeader := true, status := 200, body := "parse error: unexpected token",
             connErr := none }, none) ∧
      ResponseWriter.WriteHeader
          { wroteHeader := true, status := 200, body := "parse error: unexpected token",
            connErr := none } StatusBadRequest
        = { wroteHeader := true, status := 200, body := "parse error: unexpected token",
            connErr := none } := by
  refine ⟨rfl, by decide, by decide, by decide⟩

/-- The status of a rejected body on a working connection is `200` for every store,
request and error text. -/
theorem serve_decode_error (unmarshal : Unmarshal) (zipkin : ZipkinServer) (r : Request)
    (err : String) (hpath : r.Path = "/v1/trace") (hmethod : r.Method = "POST")
    (hctype : r.Header.Get "content-type" = "application/json")
    (hdecode : unmarshal r.Body = .error err) :
    serve unmarshal none zipkin r = (zipkin, some { status := 200, body := err }) := by
  simp [serve, handler, hpath, hmethod, hctype, hdecode, MethodPost, ResponseWriter.new,
    ResponseWriter.finishRequest, ResponseWriter.WriteHeader, ResponseWriter.WriteString,
    StatusOK]

theorem serve_not_acceptable (unmarshal : Unmarshal) (connErr : Option String)
    (zipkin : ZipkinServer) (r : Request)
    (hpath : r.Path = "/v1/trace") (hmethod : r.Method = "POST")
    (hctype : r.Header.Get "content-type" ≠ "application/json") :
    serve unmarshal connErr zipkin r = (zipkin, some { status := 406, body := "" }) := by
  simp [serve, handler, hpath, hmethod, hctype, MethodPost, ResponseWriter.new,
    ResponseWriter.finishRequest, ResponseWriter.WriteHeader, StatusNotAcceptable]

/-- C3.  A POST to `/v1/trace` whose content type, as `Header.Get` gives it (the empty
string for an absent header), is not `application/json` is answered `406` with an empty
body and the store is left as it was, whatever the body and the decoder: the outcome is
the same for every other body and decoder, so the body is not decoded. -/
theorem serve_wrong_content_type (unmarshal : Unmarshal) (connErr : Option String)
    (zipkin : ZipkinServer) (r : Request)
    (hpath : r.Path = "/v1/trace") (hmethod : r.Method = "POST")
    (hctype : r.Header.Get "content-type" ≠ "application/json") :
    serve unmarshal connErr zipkin r = (zipkin, some { status := 406, body := "" }) ∧
      ∀ (unmarshal2 : Unmarshal) (body2 : String),
        serve unmarshal2 connErr zipkin { r with Body := body2 }
          = serve unmarshal connErr zipkin r := by
  have key : ∀ (u : Unmarshal) (b : String),
      serve u connErr zipkin { r with Body := b }
        = (zipkin, some { status := 406, body := "" }) := by
    intro u b
    simp [serve, handler, hpath, hmethod, hctype, MethodPost, ResponseWriter.new,
      ResponseWriter.finishRequest, ResponseWriter.WriteHeader, StatusNotAcceptable]
  have h0 := key unmarshal r.Body
  refine ⟨h0, fun u b => ?_⟩
  rw [key u b, ← h0]

theorem serve_wrong_content_type_witness :
    Header.Get [] "content-type" ≠ "application/json" ∧
      (serve sampleUnmarshal none { Spans := [span1] }
          { Method := "POST", Path := "/v1/trace", Header := [], Body := "[span-1]" }
        = ({ Spans := [span1] },
            some { status := 406, body := "" }) ∧
        ∀ (unmarshal2 : Unmarshal) (body2 : String),
          serve unmarshal2 none { Spans := [span1] }
              { Method := "POST", Path := "/v1/trace", Header := [], Body := body2 }
            = serve sampleUnmarshal none
                { Spans := [span1] }
                { Method := "POST", Path := "/v1/trace", Header := [], Body := "[span-1]" }) :=
  ⟨by decide,
    serve_wrong_content_type sampleUnmarshal none _
      { Method := "POST", Path := "/v1/trace", Header := [], Body := "[span-1]" }
      rfl rfl (by decide)⟩

/-- C4.  A request to `/v1/trace` whose method is not `POST` is answered `405` with an
empty body and the store is left as it was, whatever the headers, the body and the
decoder; the content type is not looked at, so a wrong content type still gives `405`
and not `406`. -/
theorem serve_wrong_method (unmarshal : Unmarshal) (connErr : Option String)
    (zipkin : ZipkinServer) (r : Request)
    (hpath : r.Path = "/v1/trace") (hmethod : r.Method ≠ "POST") :
    serve unmarshal connErr zipkin r = (zipkin, some { status := 405, body := "" }) ∧
      ∀ (unmarshal2 : Unmarshal) (header2 : Header) (body2 : String),
        serve unmarshal2 connErr zipkin { r with Header := header2, Body := body2 }
          = (zipkin, some { status := 405, body := "" }) := by
  have key : ∀ (u : Unmarshal) (h : Header) (b : String),
      serve u connErr zipkin { r with Header := h, Body := b }
        = (zipkin, some { status := 405, body := "" }) := by
    intro u h b
    simp [serve, handler, hpath, hmethod, MethodPost, ResponseWriter.new,
      ResponseWriter.finishRequest, ResponseWriter.WriteHeader, StatusMethodNotAllowed]
  exact ⟨key unmarshal r.Header r.Body, key⟩

theorem serve_wrong_method_witness :
    ("GET" : String) ≠ "POST" ∧
      (serve sampleUnmarshal none { Spans := [] }
          { Method := "GET", Path := "/v1/trace", Header := contentType "application/json",
            Body := "[span-1]" }
        = ({ Spans := [] }, some { status := 405, body := "" }) ∧
        ∀ (unmarshal2 : Unmarshal) (header2 : Header) (body2 : String),
          serve unmarshal2 none { Spans := [] }
              { Method := "GET", Path := "/v1/trace", Header := header2, Body := body2 }
            = ({ Spans := [] }, some { status := 405, body := "" })) :=
  ⟨by decide,
    serve_wrong_method sampleUnmarshal none { Spans := [] }
      { Method := "GET", Path := "/v1/trace", Header := contentType "application/json",
        Body := "[span-1]" }
      rfl (by decide)⟩

/-- C5.  A request whose path is not exactly `/v1/trace` is answered `404` with an empty
body and the store is left as it was, whatever the method, the headers, the body and the
decoder. -/
theorem serve_wrong_path (unmarshal : Unmarshal) (connErr : Option String)
    (zipkin : ZipkinServer) (r : Request) (hpath : r.Path ≠ "/v1/trace") :
    serve unmarshal connErr zipkin r = (zipkin, some { status := 404, body := "" }) := by
  simp [serve, handler, hpath, ResponseWriter.new, ResponseWriter.finishRequest,
    ResponseWriter.WriteHeader, StatusNotFound]

theorem serve_wrong_path_witness :
    ("/v1/trace/" : String) ≠ "/v1/trace" ∧
      serve sampleUnmarshal none { Spans := [] }
          { Method := "POST", Path := "/v1/trace/", Header := contentType "application/json",
            Body := "[span-1]" }
        = ({ Spans := [] }, some { status := 404, body := "" }) :=
  ⟨by decide,
    serve_wrong_path sampleUnmarshal none { Spans := [] }
      { Method := "POST", Path := "/v1/trace/", Header := contentType "application/json",
        Body := "[span-1]" }
      (by decide)⟩

/-! ## Batches one after another, and `Reset` -/

theorem serveAll_of_accepts (unmarshal : Unmarshal) (connErr : Option String)
    (reqs : List Request) (batches : List Trace)
    (h : List.Forall₂ (Accepts unmarshal) reqs batches) (zipkin : ZipkinServer) :
    serveAll unmarshal connErr zipkin reqs = { Spans := zipkin.Spans ++ batches.flatten } := by
  induction h generalizing zipkin with
  | nil => simp [serveAll]
  | cons hr _ ih =>
    simp [serveAll, serve_of_accepts unmarshal connErr zipkin _ _ hr, ih, List.append_assoc]

theorem forall₂_take_accepts (unmarshal : Unmarshal) (reqs : List Request)
    (batches : List Trace) (h : List.Forall₂ (Accepts unmarshal) reqs batches) (k : Nat) :
    List.Forall₂ (Accepts unmarshal) (reqs.take k) (batches.take k) := by
  induction h generalizing k with
  | nil => simp
  | cons hr _ ih =>
    cases k with
    | zero => simp
    | succ k => simpa using ⟨hr, ih k⟩

/-- C6.  When the requests `reqs` are accepted one after another with the batches
`batches`, starting from the store `S`, the final store is `S` followed by the batches
in order; its length is the length of `S` plus the sum of the batch sizes; and after
each step `k` the store is `S` followed by the first `k` batches, which is an initial
segment of the final store.  Nothing is said of the spans being distinct, so repeated
spans are kept. -/
theorem serveAll_valid_batches (unmarshal : Unmarshal) (connErr : Option String)
    (zipkin : ZipkinServer) (reqs : List Request) (batches : List Trace)
    (h : List.Forall₂ (Accepts unmarshal) reqs batches) :
    (serveAll unmarshal connErr zipkin reqs).Spans = zipkin.Spans ++ batches.flatten ∧
      (serveAll unmarshal connErr zipkin reqs).Spans.length
        = zipkin.Spans.length + (batches.map List.length).sum ∧
      ∀ k : Nat,
        (serveAll unmarshal connErr zipkin (reqs.take k)).Spans
            = zipkin.Spans ++ (batches.take k).flatten ∧
          (serveAll unmarshal connErr zipkin (reqs.take k)).Spans
            <+: (serveAll unmarshal connErr zipkin reqs).Spans := by
  have hall := serveAll_of_accepts unmarshal connErr reqs batches h zipkin
  refine ⟨by rw [hall], by rw [hall]; simp [List.length_flatten], fun k => ?_⟩
  have hk := serveAll_of_accepts unmarshal connErr _ _
    (forall₂_take_accepts unmarshal reqs batches h k) zipkin
  refine ⟨by rw [hk], ?_⟩
  rw [hk, hall]
  refine ⟨(batches.drop k).flatten, ?_⟩
  simp only [List.append_assoc, ← List.flatten_append, List.take_append_drop]

theorem serveAll_valid_batches_witness :
    (serveAll sampleUnmarshal none { Spans := [span1] }
        [postJSON "[span-1]", postJSON "[]", postJSON "[span-2,span-1]"]).Spans
        = [span1] ++ [[span1], [], [span2, span1]].flatten ∧
      (serveAll sampleUnmarshal none { Spans := [span1] }
        [postJSON "[span-1]", postJSON "[]", postJSON "[span-2,span-1]"]).Spans.length
        = [span1].length + ([[span1], [], [span2, span1]].map List.length).sum ∧
      ∀ k : Nat,
        (serveAll sampleUnmarshal none { Spans := [span1] }
            ([postJSON "[span-1]", postJSON "[]", postJSON "[span-2,span-1]"].take k)).Spans
            = [span1] ++ ([[span1], [], [span2, span1]].take k).flatten ∧
          (serveAll sampleUnmarshal none { Spans := [span1] }
            ([postJSON "[span-1]", postJSON "[]", postJSON "[span-2,span-1]"].take k)).Spans
            <+: (serveAll sampleUnmarshal none { Spans := [span1] }
              [postJSON "[span-1]", postJSON "[]", postJSON "[span-2,span-1]"]).Spans :=
  serveAll_valid_batches sampleUnmarshal none { Spans := [span1] }
    [postJSON "[span-1]", postJSON "[]", postJSON "[span-2,span-1]"]
    [[span1], [], [span2, span1]]
    (.cons (accepts_postJSON _ _ _ rfl)
      (.cons (accepts_postJSON _ _ _ rfl) (.cons (accepts_postJSON _ _ _ rfl) .nil)))

/-- C7.  After `Reset` the store is empty, of length 0, whatever it held; `Reset` after
`Reset` is one `Reset`; `Reset` of an empty store changes nothing; and a batch accepted
after a `Reset` leaves the store equal to that batch. -/
theorem Reset_spec (unmarshal : Unmarshal) (connErr : Option String) (zipkin : ZipkinServer)
    (r : Request) (B : Trace) (h : Accepts unmarshal r B) :
    zipkin.Reset.Spans = [] ∧ zipkin.Reset.Spans.length = 0 ∧
      zipkin.Reset.Reset = zipkin.Reset ∧
      (zipkin.Spans = [] → zipkin.Reset = zipkin) ∧
      (serve unmarshal connErr zipkin.Reset r).1.Spans = B := by
  refine ⟨rfl, rfl, rfl, ?_, ?_⟩
  · intro h0
    cases zipkin
    simp_all [ZipkinServer.Reset]
  · rw [serve_of_accepts unmarshal connErr _ r B h]
    simp [ZipkinServer.Reset]

theorem Reset_spec_witness :
    (ZipkinServer.Reset { Spans := [span1, span2] }).Spans = [] ∧
      (serve sampleUnmarshal none (ZipkinServer.Reset { Spans := [span1, span2] })
        (postJSON "[span-2,span-1]")).1.Spans = [span2, span1] ∧
      ZipkinServer.Reset Start = Start :=
  ⟨(Reset_spec sampleUnmarshal none { Spans := [span1, span2] } (postJSON "[span-2,span-1]")
      [span2, span1] (accepts_postJSON _ _ _ rfl)).1,
    (Reset_spec sampleUnmarshal none { Spans := [span1, span2] } (postJSON "[span-2,span-1]")
      [span2, span1] (accepts_postJSON _ _ _ rfl)).2.2.2.2,
    (Reset_spec sampleUnmarshal none Start (postJSON "[]") [] (accepts_postJSON _ _ _ rfl)).2.2.2.1
      rfl⟩

/-! ## Waiting for spans -/

theorem serve_store_cases (unmarshal : Unmarshal) (connErr : Option String)
    (zipkin : ZipkinServer) (r : Request) :
    (serve unmarshal connErr zipkin r).1 = zipkin ∨
      ∃ B, Accepts unmarshal r B ∧
        (serve unmarshal connErr zipkin r).1 = { Spans := zipkin.Spans ++ B } := by
  by_cases hp : r.Path = "/v1/trace"
  · by_cases hm : r.Method = "POST"
    · by_cases hc : r.Header.Get "content-type" = "application/json"
      · cases hd : unmarshal r.Body with
        | error err =>
          left
          cases connErr <;>
            simp [serve, handler, hp, hm, hc, hd, MethodPost, ResponseWriter.new,
              ResponseWriter.WriteHeader, ResponseWriter.WriteString]
        | ok trace =>
          right
          exact ⟨trace, ⟨hp, hm, hc, hd⟩,
            by rw [serve_of_accepts unmarshal connErr zipkin r trace ⟨hp, hm, hc, hd⟩]⟩
      · left
        rw [(serve_not_acceptable unmarshal connErr zipkin r hp hm hc)]
    · left
      simp [serve, handler, hp, hm, MethodPost]
  · left
    simp [serve, handler, hp]

theorem serve_spans_extends (unmarshal : Unmarshal) (connErr : Option String)
    (zipkin : ZipkinServer) (r : Request) :
    zipkin.Spans <+: (serve unmarshal connErr zipkin r).1.Spans := by
  rcases serve_store_cases unmarshal connErr zipkin r with h | ⟨B, _, h⟩
  · rw [h]
  · rw [h]
    exact List.prefix_append _ _

theorem serveAll_spans_extends (unmarshal : Unmarshal) (connErr : Option String)
    (reqs : List Request) (zipkin : ZipkinServer) :
    zipkin.Spans <+: (serveAll unmarshal connErr zipkin reqs).Spans := by
  induction reqs generalizing zipkin with
  | nil => exact List.prefix_rfl
  | cons r rs ih =>
    exact (serve_spans_extends unmarshal connErr zipkin r).trans (ih _)

theorem observations_extend (unmarshal : Unmarshal) (connErr : Option String)
    (reqs : List Request) (zipkin : ZipkinServer) :
    ∀ s ∈ zipkin.Spans :: observations unmarshal connErr zipkin reqs,
      zipkin.Spans <+: s ∧ s <+: (serveAll unmarshal connErr zipkin reqs).Spans := by
  induction reqs generalizing zipkin with
  | nil =>
    intro s hs
    simp [observations] at hs
    subst hs
    exact ⟨List.prefix_rfl, List.prefix_rfl⟩
  | cons r rs ih =>
    intro s hs
    rcases List.mem_cons.1 hs with h0 | h1
    · subst h0
      exact ⟨List.prefix_rfl, serveAll_spans_extends unmarshal connErr (r :: rs) zipkin⟩
    · have h2 := ih (serve unmarshal connErr zipkin r).1 s (by simpa [observations] using h1)
      exact ⟨(serve_spans_extends unmarshal connErr zipkin r).trans h2.1, h2.2⟩

theorem getLast_observations (unmarshal : Unmarshal) (connErr : Option String)
    (reqs : List Request) (zipkin : ZipkinServer) :
    (zipkin.Spans :: observations unmarshal connErr zipkin reqs).getLast
        (List.cons_ne_nil _ _)
      = (serveAll unmarshal connErr zipkin reqs).Spans := by
  induction reqs generalizing zipkin with
  | nil => rfl
  | cons r rs ih =>
    simp only [observations, serveAll]
    rw [List.getLast_cons (List.cons_ne_nil _ _)]
    exact ih _

theorem waitFor_ok (n : Nat) (later : List Trace) (cur tr : Trace)
    (h : waitFor n cur later = .ok tr) :
    n ≤ tr.length ∧
      ∃ earlier after, cur :: later = earlier ++ tr :: after ∧
        ∀ s ∈ earlier, s.length < n := by
  induction later generalizing cur with
  | nil =>
    unfold waitFor at h
    split_ifs at h with hn
    cases h
    exact ⟨hn, [], [], rfl, by simp⟩
  | cons nxt rest ih =>
    unfold waitFor at h
    split_ifs at h with hn
    · cases h
      exact ⟨hn, [], nxt :: rest, rfl, by simp⟩
    · obtain ⟨h1, earlier, after, h2, h3⟩ := ih nxt h
      refine ⟨h1, cur :: earlier, after, by rw [h2]; rfl, ?_⟩
      intro s hs
      rcases List.mem_cons.1 hs with h0 | h0
      · subst h0; omega
      · exact h3 s h0

theorem waitFor_error (n : Nat) (later : List Trace) (cur : Trace) (c : Nat)
    (h : waitFor n cur later = .error c) :
    c < n ∧ (∀ s ∈ cur :: later, s.length < n) ∧
      c = ((cur :: later).getLast (List.cons_ne_nil _ _)).length := by
  induction later generalizing cur with
  | nil =>
    unfold waitFor at h
    split_ifs at h with hn
    cases h
    exact ⟨by omega, by simpa using hn, rfl⟩
  | cons nxt rest ih =>
    unfold waitFor at h
    split_ifs at h with hn
    obtain ⟨h1, h2, h3⟩ := ih nxt h
    refine ⟨h1, ?_, ?_⟩
    · intro s hs
      rcases List.mem_cons.1 hs with h0 | h0
      · subst h0; omega
      · exact h2 s h0
    · rw [List.getLast_cons (List.cons_ne_nil _ _)]
      exact h3

theorem waitFor_total (n : Nat) (later : List Trace) (cur : Trace) :
    (∃ tr, waitFor n cur later = .ok tr) ∨ (∃ c, waitFor n cur later = .error c) := by
  cases h : waitFor n cur later with
  | ok tr => exact Or.inl ⟨tr, rfl⟩
  | error c => exact Or.inr ⟨c, rfl⟩

theorem waitFor_ok_iff (n : Nat) (later : List Trace) (cur : Trace) :
    (∃ tr, waitFor n cur later = .ok tr) ↔ ∃ s ∈ cur :: later, n ≤ s.length := by
  constructor
  · rintro ⟨tr, h⟩
    obtain ⟨h1, earlier, after, h2, _⟩ := waitFor_ok n later cur tr h
    exact ⟨tr, by rw [h2]; simp, h1⟩
  · rintro ⟨s, hs, hn⟩
    rcases waitFor_total n later cur with h | ⟨c, h⟩
    · exact h
    · have := (waitFor_error n later cur c h).2.1 s hs
      omega

/-- C8.  In the model of the wait primitive: the wait always ends, with a snapshot or
with a count; it succeeds exactly when one of the looks taken before the deadline
finds at least `n` spans, which for looks at this server is exactly when the store
holds at least `n` spans at the deadline; a successful wait returns the store as found
by the first such look, which has at least `n` spans, extends the store the wait
started from and agrees with the store at the deadline on its first `n` spans; a failed
wait reports the length found by the last look, which is less than `n`, as were all the
lengths found; and waiting for 5 spans on a fresh server with nothing sent fails
reporting 0. -/
theorem WaitForSpans_spec (unmarshal : Unmarshal) (connErr : Option String)
    (zipkin : ZipkinServer) (reqs : List Request) (n : Nat) :
    ((∃ tr, WaitForSpans unmarshal connErr zipkin reqs n = .ok tr) ∨
        (∃ c, WaitForSpans unmarshal connErr zipkin reqs n = .error c)) ∧
      ((∃ tr, WaitForSpans unmarshal connErr zipkin reqs n = .ok tr) ↔
        ∃ s ∈ zipkin.Spans :: observations unmarshal connErr zipkin reqs, n ≤ s.length) ∧
      ((∃ tr, WaitForSpans unmarshal connErr zipkin reqs n = .ok tr) ↔
        n ≤ (serveAll unmarshal connErr zipkin reqs).Spans.length) ∧
      (∀ tr, WaitForSpans unmarshal connErr zipkin reqs n = .ok tr →
        n ≤ tr.length ∧
          (∃ earlier after,
            zipkin.Spans :: observations unmarshal connErr zipkin reqs
                = earlier ++ tr :: after ∧
              ∀ s ∈ earlier, s.length < n) ∧
          zipkin.Spans <+: tr ∧
          tr <+: (serveAll unmarshal connErr zipkin reqs).Spans ∧
          tr.take n = (serveAll unmarshal connErr zipkin reqs).Spans.take n) ∧
      (∀ c, WaitForSpans unmarshal connErr zipkin reqs n = .error c →
        c < n ∧ c = (serveAll unmarshal connErr zipkin reqs).Spans.length ∧
          ∀ s ∈ zipkin.Spans :: observations unmarshal connErr zipkin reqs,
            s.length < n) ∧
      WaitForSpans unmarshal connErr Start [] 5 = .error 0 := by
  have hiff := waitFor_ok_iff n (observations unmarshal connErr zipkin reqs) zipkin.Spans
  have hext := observations_extend unmarshal connErr reqs zipkin
  have hlast := getLast_observations unmarshal connErr reqs zipkin
  refine ⟨waitFor_total _ _ _, hiff, ?_, ?_, ?_, rfl⟩
  · refine hiff.trans ⟨?_, fun hn => ?_⟩
    · rintro ⟨s, hs, hn⟩
      exact hn.trans (hext s hs).2.length_le
    · exact ⟨_, List.getLast_mem (List.cons_ne_nil _ _), by rw [hlast]; exact hn⟩
  · intro tr h
    obtain ⟨h1, earlier, after, h2, h3⟩ := waitFor_ok n _ _ tr h
    have hmem : tr ∈ zipkin.Spans :: observations unmarshal connErr zipkin reqs := by
      rw [h2]; simp
    obtain ⟨p1, p2⟩ := hext tr hmem
    refine ⟨h1, ⟨earlier, after, h2, h3⟩, p1, p2, ?_⟩
    obtain ⟨t, ht⟩ := p2
    rw [← ht, List.take_append_of_le_length h1]
  · intro c h
    obtain ⟨h1, h2, h3⟩ := waitFor_error n _ _ c h
    exact ⟨h1, by rw [h3, hlast], h2⟩

theorem WaitForSpans_spec_witness :
    (2 ≤ [span2, span1].length ∧
      [span2, span1].take 2
        = (serveAll sampleUnmarshal none Start
            [postJSON "oops", postJSON "[span-2,span-1]", postJSON "[span-1]"]).Spans.take 2) ∧
      (1 < 2 ∧
        1 = (serveAll sampleUnmarshal none Start
              [postJSON "[]", postJSON "[span-1]", postJSON "oops"]).Spans.length) :=
  have h := (WaitForSpans_spec sampleUnmarshal none Start
    [postJSON "oops", postJSON "[span-2,span-1]", postJSON "[span-1]"] 2).2.2.2.1
      [span2, span1] rfl
  have e := (WaitForSpans_spec sampleUnmarshal none Start
    [postJSON "[]", postJSON "[span-1]", postJSON "oops"] 2).2.2.2.2.1 1 rfl
  ⟨⟨h.1, h.2.2.2.2⟩, ⟨e.1, e.2.1⟩⟩

end zipkinserver

namespace strings

/-! ## `strings.Split` and `strings.TrimSpace` -/

theorem splitChars_ne_nil (sep : Char) (s : List Char) : splitChars sep s ≠ [] := by
  cases s with
  | nil => simp [splitChars]
  | cons c cs =>
    unfold splitChars
    split_ifs
    · simp
    · split <;> simp

theorem splitChars_cons_ne (sep c : Char) (cs : List Char) (h : c ≠ sep) :
    splitChars sep (c :: cs)
      = (c :: (splitChars sep cs).headI) :: (splitChars sep cs).tail := by
  have hne := splitChars_ne_nil sep cs
  rw [splitChars, if_neg h]
  cases hs : splitChars sep cs with
  | nil => exact absurd hs hne
  | cons p ps => rfl

/-- The pieces, put together again with the separator between them, are the text. -/
theorem intercalate_splitChars (sep : Char) (s : List Char) :
    [sep].intercalate (splitChars sep s) = s := by
  induction s with
  | nil => rfl
  | cons c cs ih =>
    have hne := splitChars_ne_nil sep cs
    by_cases h : c = sep
    · rw [splitChars, if_pos h]
      cases hs : splitChars sep cs with
      | nil => exact absurd hs hne
      | cons p ps =>
        rw [hs] at ih
        rw [← ih, h]
        simp [List.intercalate, List.intersperse]
    · rw [splitChars_cons_ne sep c cs h]
      cases hs : splitChars sep cs with
      | nil => exact absurd hs hne
      | cons p ps =>
        rw [hs] at ih
        rw [← ih]
        cases ps <;> simp [List.intercalate, List.intersperse, List.headI]

/-- No piece contains the separator. -/
theorem not_mem_of_mem_splitChars (sep : Char) (s : List Char) :
    ∀ p ∈ splitChars sep s, sep ∉ p := by
  induction s with
  | nil => simp [splitChars]
  | cons c cs ih =>
    have hne := splitChars_ne_nil sep cs
    by_cases h : c = sep
    · rw [splitChars, if_pos h]
      intro p hp
      rcases List.mem_cons.1 hp with h0 | h0
      · subst h0; simp
      · exact ih p h0
    · rw [splitChars_cons_ne sep c cs h]
      cases hs : splitChars sep cs with
      | nil => exact absurd hs hne
      | cons q qs =>
        rw [hs] at ih
        intro p hp
        rcases List.mem_cons.1 hp with h0 | h0
        · subst h0
          have := ih q (by simp)
          simp only [List.headI, List.mem_cons, not_or]
          exact ⟨fun e => h e.symm, this⟩
        · exact ih p (List.mem_cons_of_mem _ h0)

/-- There is one piece more than there are separators. -/
theorem length_splitChars (sep : Char) (s : List Char) :
    (splitChars sep s).length = s.count sep + 1 := by
  induction s with
  | nil => rfl
  | cons c cs ih =>
    have hne := splitChars_ne_nil sep cs
    by_cases h : c = sep
    · rw [splitChars, if_pos h, h]
      simp [ih]
    · have hc : List.count sep (c :: cs) = List.count sep cs := by
        simp [List.count_cons, h]
      rw [splitChars_cons_ne sep c cs h, hc, ← ih]
      cases hs : splitChars sep cs with
      | nil => exact absurd hs hne
      | cons q qs => simp

theorem splitChars_of_not_mem (sep : Char) (s : List Char) (h : sep ∉ s) :
    splitChars sep s = [s] := by
  induction s with
  | nil => rfl
  | cons c cs ih =>
    have hc : c ≠ sep := fun e => h (by simp [e])
    have hcs : sep ∉ cs := fun e => h (List.mem_cons_of_mem _ e)
    rw [splitChars_cons_ne sep c cs hc, ih hcs]
    rfl

/-- The loop of `strings.Split`: the first piece is the text before the first
separator, and the other pieces are those of the text after it. -/
theorem splitChars_eq_takeWhile (sep : Char) (s : List Char) :
    splitChars sep s
      = s.takeWhile (fun c => c != sep) ::
          (match s.dropWhile (fun c => c != sep) with
            | [] => []
            | _ :: rest => splitChars sep rest) := by
  induction s with
  | nil => rfl
  | cons c cs ih =>
    by_cases h : c = sep
    · rw [splitChars, if_pos h]
      simp [h]
    · rw [splitChars_cons_ne sep c cs h, ih]
      simp [h, List.headI]

/-- A text with exactly one separator splits into the text before it and the text
after it. -/
theorem splitChars_of_count_one (sep : Char) (s : List Char) (h : s.count sep = 1) :
    splitChars sep s
      = [s.takeWhile (fun c => c != sep), (s.dropWhile (fun c => c != sep)).tail] := by
  induction s with
  | nil => simp at h
  | cons c cs ih =>
    by_cases hc : c = sep
    · subst hc
      have h0 : cs.count c = 0 := by simpa using h
      rw [splitChars, if_pos rfl, splitChars_of_not_mem c cs (List.count_eq_zero.1 h0)]
      simp
    · have h1 : cs.count sep = 1 := by simpa [List.count_cons, hc] using h
      rw [splitChars_cons_ne sep c cs hc, ih h1]
      simp [hc, List.headI]

theorem Split_data (s : String) (sep : Char) :
    (Split s sep).map String.data = splitChars sep s.data := by
  simp [Split, List.map_map, Function.comp_def]

/-- The entries of `Split`, put together again with the separator between them, are
the text, and no entry contains the separator. -/
theorem Split_spec (s : String) (sep : Char) :
    String.mk ([sep].intercalate ((Split s sep).map String.data)) = s ∧
      ∀ e ∈ Split s sep, sep ∉ e.data := by
  refine ⟨by rw [Split_data, intercalate_splitChars], fun e he => ?_⟩
  apply not_mem_of_mem_splitChars sep s.data
  rw [← Split_data]
  exact List.mem_map_of_mem _ he

/-- What `TrimSpace` returns sits in the text between a run of white space and another
run of white space, and neither starts nor ends with white space. -/
theorem TrimSpace_spec (s : String) :
    (∃ l r : List Char, s.data = l ++ (TrimSpace s).data ++ r ∧
      (∀ c ∈ l, IsSpace c = true) ∧ (∀ c ∈ r, IsSpace c = true)) ∧
      (∀ c ∈ (TrimSpace s).data.head?, IsSpace c = false) ∧
      (∀ c ∈ (TrimSpace s).data.getLast?, IsSpace c = false) := by
  have hmid : ∀ m : List Char, (∀ c ∈ m.head?, IsSpace c = false) →
      (∃ r, m = m.rdropWhile IsSpace ++ r ∧ ∀ c ∈ r, IsSpace c = true) ∧
        (∀ c ∈ (m.rdropWhile IsSpace).head?, IsSpace c = false) ∧
        (∀ c ∈ (m.rdropWhile IsSpace).getLast?, IsSpace c = false) := by
    intro m hm
    refine ⟨⟨m.rtakeWhile IsSpace, ?_, fun c hc => List.mem_rtakeWhile_imp hc⟩, ?_, ?_⟩
    · simp [List.rdropWhile, List.rtakeWhile, ← List.reverse_append]
    · intro c hc
      obtain ⟨t, ht⟩ := List.rdropWhile_prefix IsSpace (l := m)
      apply hm c
      rw [← ht]
      cases hd : m.rdropWhile IsSpace with
      | nil => simp [hd] at hc
      | cons a as => simpa [hd] using hc
    · intro c hc
      by_cases hne : m.rdropWhile IsSpace = []
      · simp [hne] at hc
      · have := List.rdropWhile_last_not IsSpace m hne
        rw [List.getLast?_eq_getLast _ hne] at hc
        simp only [Option.mem_def, Option.some.injEq] at hc
        subst hc
        simpa using this
  have hhead : ∀ c ∈ (s.data.dropWhile IsSpace).head?, IsSpace c = false := by
    intro c hc
    have := List.head?_dropWhile_not IsSpace s.data
    simp only [Option.mem_def] at hc
    rw [hc] at this
    exact this
  obtain ⟨⟨r, hr, hrs⟩, h2, h3⟩ := hmid _ hhead
  refine ⟨⟨s.data.takeWhile IsSpace, r, ?_, ?_, hrs⟩, h2, h3⟩
  · show s.data = _ ++ (s.data.dropWhile IsSpace).rdropWhile IsSpace ++ r
    rw [List.append_assoc, ← hr, List.takeWhile_append_dropWhile]
  · intro c hc
    exact (List.mem_takeWhile_imp hc)

end strings

namespace tracing

open tracer (StartOption)

/-! ## `envDefaultAndGlobalTags` and `envOrDefault` -/

/-- An entry `key:value` with no colon in the key nor in the value gives the tag of
the trimmed key and the trimmed value, unless the trimmed key is empty. -/
theorem specEntryTag_key_value (k v : String) (hk : ':' ∉ k.data) (hv : ':' ∉ v.data) :
    specEntryTag (String.mk (k.data ++ ':' :: v.data))
      = if strings.TrimSpace k = "" then none
        else some (StartOption.WithGlobalTag (strings.TrimSpace k) (strings.TrimSpace v)) := by
  have hcount : (k.data ++ ':' :: v.data).count ':' = 1 := by
    simp [List.count_append, List.count_eq_zero.2 hk, List.count_eq_zero.2 hv]
  have hkall : ∀ a ∈ k.data, (a != ':') = true := by
    intro a ha
    simp only [bne_iff_ne, ne_eq]
    rintro rfl
    exact hk ha
  have htake : (k.data ++ ':' :: v.data).takeWhile (fun c => c != ':') = k.data := by
    rw [List.takeWhile_append_of_pos hkall]
    simp
  have hdrop : (k.data ++ ':' :: v.data).dropWhile (fun c => c != ':') = ':' :: v.data := by
    rw [List.dropWhile_append_of_pos hkall]
    simp
  simp only [specEntryTag, hcount, htake, hdrop, if_true, List.tail_cons]

/-- One round of the loop adds the tag the specification gives the entry, if any. -/
theorem addTag_eq (globalTags : List StartOption) (tag : String) :
    addTag globalTags tag = globalTags ++ (specEntryTag tag).toList := by
  by_cases h : tag.data.count ':' = 1
  · have hs : strings.Split tag ':'
        = [String.mk (tag.data.takeWhile (fun c => c != ':')),
           String.mk (tag.data.dropWhile (fun c => c != ':')).tail] := by
      simp [strings.Split, strings.splitChars_of_count_one _ _ h]
    simp only [addTag, specEntryTag, hs, if_pos h]
    split_ifs <;> simp
  · have hl : (strings.Split tag ':').length ≠ 2 := by
      simp only [strings.Split, List.length_map, strings.length_splitChars]
      omega
    unfold addTag specEntryTag
    rw [if_neg h]
    generalize strings.Split tag ':' = pair at hl
    match pair, hl with
    | [], _ => simp
    | [_], _ => simp
    | [_, _], hl => simp at hl
    | _ :: _ :: _ :: _, _ => simp

theorem foldl_addTag (tags : List String) (globalTags : List StartOption) :
    tags.foldl addTag globalTags = globalTags ++ tags.filterMap specEntryTag := by
  induction tags generalizing globalTags with
  | nil => simp
  | cons t ts ih =>
    rw [List.foldl_cons, ih, addTag_eq]
    cases ht : specEntryTag t <;> simp [List.filterMap_cons, ht]

theorem Split_empty (sep : Char) : strings.Split "" sep = [""] := rfl

theorem specEntryTag_of_count_ne_one (entry : String) (h : entry.data.count ':' ≠ 1) :
    specEntryTag entry = none := by
  simp [specEntryTag, h]

/-- C9.  For every environment, with `v` the value `os.Getenv` gives for
`SIGNALFX_SPAN_TAGS`: the result is the library tag, then the version tag, then, in
the order of the comma-separated entries of `v`, the tag of each entry that has one;
the entries are the texts between the commas of `v`; an entry `key:value` with no other
colon has the tag of its trimmed key and trimmed value when the trimmed key is not
empty, and no tag when it is empty; an entry with no colon or with more than one has no
tag; and when the variable is unset or empty the result is the two default tags. -/
theorem envDefaultAndGlobalTags_spec (env : Environ) :
    envDefaultAndGlobalTags env
        = [StartOption.WithGlobalTag "signalfx.tracing.library" "go.tracing",
           StartOption.WithGlobalTag "signalfx.tracing.version" "v1.1.0"]
          ++ (strings.Split (Getenv env "SIGNALFX_SPAN_TAGS") ',').filterMap specEntryTag ∧
      (String.mk ([','].intercalate
            ((strings.Split (Getenv env "SIGNALFX_SPAN_TAGS") ',').map String.data))
          = Getenv env "SIGNALFX_SPAN_TAGS" ∧
        ∀ e ∈ strings.Split (Getenv env "SIGNALFX_SPAN_TAGS") ',', ',' ∉ e.data) ∧
      (∀ k v : String, ':' ∉ k.data → ':' ∉ v.data →
        specEntryTag (String.mk (k.data ++ ':' :: v.data))
          = if strings.TrimSpace k = "" then none
            else some (StartOption.WithGlobalTag (strings.TrimSpace k)
              (strings.TrimSpace v))) ∧
      (∀ e : String, e.data.count ':' ≠ 1 → specEntryTag e = none) ∧
      (env "SIGNALFX_SPAN_TAGS" = none ∨ env "SIGNALFX_SPAN_TAGS" = some "" →
        envDefaultAndGlobalTags env
          = [StartOption.WithGlobalTag "signalfx.tracing.library" "go.tracing",
             StartOption.WithGlobalTag "signalfx.tracing.version" "v1.1.0"]) := by
  have hempty : Getenv env "SIGNALFX_SPAN_TAGS" = "" →
      envDefaultAndGlobalTags env
        = [StartOption.WithGlobalTag "signalfx.tracing.library" "go.tracing",
           StartOption.WithGlobalTag "signalfx.tracing.version" "v1.1.0"] := by
    intro h
    simp only [envDefaultAndGlobalTags, signalfxSpanTags, h, if_true]
    rfl
  refine ⟨?_, strings.Split_spec _ _, specEntryTag_key_value,
    specEntryTag_of_count_ne_one, ?_⟩
  · by_cases h : Getenv env "SIGNALFX_SPAN_TAGS" = ""
    · rw [hempty h, h, Split_empty]
      rfl
    · simp only [envDefaultAndGlobalTags, signalfxSpanTags, h, if_false, foldl_addTag]
      rfl
  · rintro (h | h) <;> exact hempty (by simp [Getenv, h])

theorem envDefaultAndGlobalTags_spec_witness :
    envDefaultAndGlobalTags
        (environOf [("SIGNALFX_SPAN_TAGS", "a:b, c : d ,e,:f,g:h:i, k:")])
        = [StartOption.WithGlobalTag "signalfx.tracing.library" "go.tracing",
           StartOption.WithGlobalTag "signalfx.tracing.version" "v1.1.0",
           StartOption.WithGlobalTag "a" "b", StartOption.WithGlobalTag "c" "d",
           StartOption.WithGlobalTag "k" ""] ∧
      specEntryTag " c : d " = some (StartOption.WithGlobalTag "c" "d") ∧
      specEntryTag "g:h:i" = none ∧
      envDefaultAndGlobalTags (environOf [("SIGNALFX_SPAN_TAGS", "")])
        = [StartOption.WithGlobalTag "signalfx.tracing.library" "go.tracing",
           StartOption.WithGlobalTag "signalfx.tracing.version" "v1.1.0"] :=
  ⟨(envDefaultAndGlobalTags_spec
      (environOf [("SIGNALFX_SPAN_TAGS", "a:b, c : d ,e,:f,g:h:i, k:")])).1.trans
      (by decide),
    ((envDefaultAndGlobalTags_spec (environOf [])).2.2.1 " c " " d "
      (by decide) (by decide)).trans (by decide),
    (envDefaultAndGlobalTags_spec (environOf [])).2.2.2.1 "g:h:i" (by decide),
    (envDefaultAndGlobalTags_spec (environOf [("SIGNALFX_SPAN_TAGS", "")])).2.2.2.2
      (Or.inr (by decide))⟩

/-- C10 (what the code does).  With `SIGNALFX_SERVICE_NAME` set to the empty string the
variable is set, and `envOrDefault` does not return its own empty value as its comment
(the variable if set, otherwise a default value) says: it returns the default
`unnamed-go-service`. -/
theorem envOrDefault_set_empty_returns_default :
    environOf [("SIGNALFX_SERVICE_NAME", "")] "SIGNALFX_SERVICE_NAME" = some "" ∧
      envOrDefault (environOf [("SIGNALFX_SERVICE_NAME", "")]) "SIGNALFX_SERVICE_NAME"
        = "unnamed-go-service" ∧
      envOrDefault (environOf [("SIGNALFX_SERVICE_NAME", "")]) "SIGNALFX_SERVICE_NAME"
        ≠ "" := by
  decide

/-- What `envOrDefault` computes: the value of `e` when `e` is set to a non-empty
string, and otherwise, when `e` is unset or set to the empty string, `defaults[e]`,
which is `unnamed-go-service` for `SIGNALFX_SERVICE_NAME`,
`http://localhost:9080/v1/trace` for `SIGNALFX_ENDPOINT_URL`, and the empty string for
`SIGNALFX_ACCESS_TOKEN` and for every name that is not a key of `defaults`. -/
theorem envOrDefault_spec (env : Environ) (e : String) :
    envOrDefault env e
        = (match env e with
          | some v => if v = "" then defaultsAt e else v
          | none => defaultsAt e) ∧
      defaultsAt "SIGNALFX_SERVICE_NAME" = "unnamed-go-service" ∧
      defaultsAt "SIGNALFX_ENDPOINT_URL" = "http://localhost:9080/v1/trace" ∧
      defaultsAt "SIGNALFX_ACCESS_TOKEN" = "" ∧
      (defaults.lookup e = none → defaultsAt e = "") := by
  refine ⟨?_, by decide, by decide, by decide, fun h => by simp [defaultsAt, h]⟩
  unfold envOrDefault Getenv
  cases env e with
  | none => simp
  | some v => by_cases hv : v = "" <;> simp [hv]

theorem envOrDefault_spec_witness :
    envOrDefault (environOf [("SIGNALFX_SERVICE_NAME", "checkout")]) "SIGNALFX_SERVICE_NAME"
        = "checkout" ∧
      envOrDefault (environOf []) "SIGNALFX_ENDPOINT_URL" = "http://localhost:9080/v1/trace" ∧
      defaultsAt "NO_SUCH_VARIABLE" = "" :=
  ⟨(envOrDefault_spec (environOf [("SIGNALFX_SERVICE_NAME", "checkout")])
      "SIGNALFX_SERVICE_NAME").1.trans (by decide),
    (envOrDefault_spec (environOf []) "SIGNALFX_ENDPOINT_URL").1.trans (by decide),
    (envOrDefault_spec (environOf []) "NO_SUCH_VARIABLE").2.2.2.2 (by decide)⟩

end tracing
